import Mathlib

/-!
# Verification of the `prompt` library

A shallow embedding of the two components of the repository —
`src/prompt/template.py` (`PromptTemplate`) and `src/prompt/builder.py`
(`PromptBuilder`) — together with proofs about the embedded operations.

Python strings are modelled as `List Char` on the template side (where
claims are about character-level scanning) and as `String` on the builder
side.  Values stored in variable mappings are modelled by `PyVal`
(strings and integers, the value shapes exercised by the repository);
Python dicts are association lists in insertion order.
-/

/-- A Python value that can appear in a template variable mapping.
`str` and `int` are the value shapes the repository stores in defaults
and overrides; `str(v)` is modelled by `pyStr`. -/
inductive PyVal where
  | str (s : List Char)
  | int (n : Int)
deriving DecidableEq

/-- Python `str(v)` for the modelled values.  `str` of an `int` is its
decimal notation with a leading minus sign when negative, which is what
`toString : Int → String` produces. -/
def pyStr : PyVal → List Char
  | .str s => s
  | .int n => (toString n).data

/-- A Python dict with string keys, as an association list in insertion
order.  Dicts built by Python (`self.defaults`, `**kwargs`) never repeat
a key. -/
abbrev Dict : Type := List (List Char × PyVal)

/-- Dict lookup: first entry with the given key (entries built from
Python dicts are key-distinct, so this is Python's `d[k]`). -/
def dictLookup : Dict → List Char → Option PyVal
  | [], _ => none
  | (k, v) :: rest, key => if k = key then some v else dictLookup rest key

/-- Membership test, Python `key in d`, for the modelled dict. -/
def hasKey (d : Dict) (key : List Char) : Bool :=
  (dictLookup d key).isSome

/-- Embeds the Python expression `{**d, **k}`: the keys of `d` in order
with values overridden by `k` where `k` has the key, followed by the
keys of `k` not present in `d`, in order. -/
def pyDictMerge (d k : Dict) : Dict :=
  (d.map fun p => (p.1, (dictLookup k p.1).getD p.2))
    ++ k.filter fun p => (dictLookup d p.1).isNone

/-- Keys of a dict, in insertion order (`d.keys()`). -/
def dictKeys (d : Dict) : List (List Char) :=
  d.map (·.1)

/-!
## `PromptTemplate.get_variables`

The source computes `re.findall(r'\{([^}]+)\}', self.template)`.
`findallVarAux` embeds the matcher for that fixed pattern operationally:
scanning left to right, a match needs an opening brace, then a maximal
non-empty run of characters other than the closing brace, then the
closing brace; on a successful match scanning resumes after it, and on
failure at a position scanning resumes one character later.  The mode
argument is `none` while looking for an opening brace and `some acc`
(accumulated group characters, reversed) after one.
-/

def findallVarAux : Option (List Char) → List Char → List (List Char)
  | none, [] => []
  | none, c :: rest =>
      if c = '{' then findallVarAux (some []) rest
      else findallVarAux none rest
  | some _, [] => []
  | some acc, c :: rest =>
      if c = '}' then
        if acc = [] then findallVarAux none rest
        else acc.reverse :: findallVarAux none rest
      else findallVarAux (some (c :: acc)) rest

/-- Embeds `re.findall` of the variable pattern over `t`. -/
def findallVarPat (t : List Char) : List (List Char) :=
  findallVarAux none t

/-!
## `str.format`

`PromptTemplate.format` delegates to Python's built-in `str.format`
(with keyword arguments only).  `pyFormatScan` embeds CPython's markup
scan: literal text, `{{`/`}}` brace escaping, the errors for stray
braces, replacement fields `{name!conv:spec}` with bracketed index
parts skipped inside the name and nesting-aware specification
scanning.  Field resolution, conversion and specification application
are in `emitField` below.
-/

/-- Errors arising from the embedded Python code.  `keyError` is the
KeyError raised by a failed keyword lookup (it carries the key);
`indexError` is the IndexError of a positional lookup with no
positional arguments; `valueError` covers format-string parse errors
and the missing-variable error raised by `PromptTemplate.format`.
`unmodelled` flags CPython behavior outside the modelled fragment
(repr/ascii conversions, non-empty format specifications, attribute
and index paths); no theorem below depends on an `unmodelled` branch. -/
inductive PyErr where
  | keyError (key : List Char)
  | indexError (msg : String)
  | valueError (msg : List Char)
  | unmodelled (what : String)
deriving DecidableEq

deriving instance DecidableEq for Except

/-- Embeds CPython field-name resolution (`get_field`): the name up to
the first `.` or `[` is the argument; an empty or all-digit argument is
positional, and with no positional arguments CPython raises IndexError
(CPython accepts any Unicode decimal digits there; the fragment the
theorems use is ASCII).  Otherwise the argument is a keyword, raising
KeyError when absent.  An attribute/index path after the argument is
flagged, after the lookup, as outside the modelled fragment. -/
def getField (kw : Dict) (name : List Char) : Except PyErr PyVal :=
  let first := name.takeWhile fun c => decide (c ≠ '.' ∧ c ≠ '[')
  let path := name.dropWhile fun c => decide (c ≠ '.' ∧ c ≠ '[')
  let base : Except PyErr PyVal :=
    if first = [] then .error (.indexError "Replacement index 0 out of range")
    else if first.all (·.isDigit) then .error (.indexError "Replacement index out of range")
    else match dictLookup kw first with
      | some v => .ok v
      | none => .error (.keyError first)
  match base with
  | .error e => .error e
  | .ok v => if path = [] then .ok v else .error (.unmodelled "attribute or index path in field name")

/-- Embeds conversion specifiers: `!s` applies `str`; `!r` and `!a` are
outside the modelled fragment; any other conversion character is a
CPython ValueError. -/
def applyConversion : Option Char → PyVal → Except PyErr PyVal
  | none, v => .ok v
  | some 's', v => .ok (.str (pyStr v))
  | some 'r', _ => .error (.unmodelled "repr conversion")
  | some 'a', _ => .error (.unmodelled "ascii conversion")
  | some _, _ => .error (.valueError "Unknown conversion specifier".data)

/-- Embeds `format(v, spec)` as invoked by `str.format` on a resolved
field: the absent or empty specification yields `str(v)`; the rest of
the format mini-language is outside the modelled fragment. -/
def applyFormatSpec : Option (List Char) → PyVal → Except PyErr (List Char)
  | none, v => .ok (pyStr v)
  | some [], v => .ok (pyStr v)
  | some (_ :: _), _ => .error (.unmodelled "non-empty format specification")

/-- Resolve one replacement field: look the name up, apply the
conversion, then the format specification. -/
def emitField (kw : Dict) (name : List Char) (conv : Option Char)
    (spec : Option (List Char)) : Except PyErr (List Char) :=
  match getField kw name with
  | .error e => .error e
  | .ok v =>
    match applyConversion conv v with
    | .error e => .error e
    | .ok v2 => applyFormatSpec spec v2

/-- Scanner state of the `str.format` markup loop: in literal text,
just after an opening or closing brace, inside a field name, inside a
bracketed index part of a field name, expecting a conversion character,
just after one, or inside a format specification (with its brace
nesting depth).  Accumulators hold scanned characters in reverse. -/
inductive FmtMode where
  | lit
  | openB
  | closeB
  | fname (acc : List Char)
  | findex (acc : List Char)
  | fconv (name : List Char)
  | fconv2 (name : List Char) (conv : Char)
  | fspec (name : List Char) (conv : Option Char) (acc : List Char) (depth : Nat)
deriving DecidableEq

/-- The markup scan of CPython `str.format`, one character at a time.
Parse-error messages follow CPython's (braces written escaped). -/
def pyFormatScan (kw : Dict) : FmtMode → List Char → Except PyErr (List Char)
  | .lit, [] => .ok []
  | .lit, c :: rest =>
      if c = '{' then pyFormatScan kw .openB rest
      else if c = '}' then pyFormatScan kw .closeB rest
      else
        match pyFormatScan kw .lit rest with
        | .error e => .error e
        | .ok out => .ok (c :: out)
  | .openB, [] => .error (.valueError "Single \x7b encountered in format string".data)
  | .openB, c :: rest =>
      if c = '{' then
        match pyFormatScan kw .lit rest with
        | .error e => .error e
        | .ok out => .ok ('{' :: out)
      else if c = '}' then
        match emitField kw [] none none with
        | .error e => .error e
        | .ok out =>
          match pyFormatScan kw .lit rest with
          | .error e => .error e
          | .ok tail => .ok (out ++ tail)
      else if c = ':' then pyFormatScan kw (.fspec [] none [] 1) rest
      else if c = '!' then pyFormatScan kw (.fconv []) rest
      else if c = '[' then pyFormatScan kw (.findex ['[']) rest
      else pyFormatScan kw (.fname [c]) rest
  | .closeB, [] => .error (.valueError "Single \x7d encountered in format string".data)
  | .closeB, c :: rest =>
      if c = '}' then
        match pyFormatScan kw .lit rest with
        | .error e => .error e
        | .ok out => .ok ('}' :: out)
      else .error (.valueError "Single \x7d encountered in format string".data)
  | .fname _, [] => .error (.valueError "Single \x7b encountered in format string".data)
  | .fname acc, c :: rest =>
      if c = '}' then
        match emitField kw acc.reverse none none with
        | .error e => .error e
        | .ok out =>
          match pyFormatScan kw .lit rest with
          | .error e => .error e
          | .ok tail => .ok (out ++ tail)
      else if c = ':' then pyFormatScan kw (.fspec acc.reverse none [] 1) rest
      else if c = '!' then pyFormatScan kw (.fconv acc.reverse) rest
      else if c = '[' then pyFormatScan kw (.findex ('[' :: acc)) rest
      else if c = '{' then .error (.valueError "unexpected \x7b in field name".data)
      else pyFormatScan kw (.fname (c :: acc)) rest
  | .findex _, [] => .error (.valueError "Missing ] in format string".data)
  | .findex acc, c :: rest =>
      if c = ']' then pyFormatScan kw (.fname (']' :: acc)) rest
      else pyFormatScan kw (.findex (c :: acc)) rest
  | .fconv _, [] =>
      .error (.valueError "end of string while looking for conversion specifier".data)
  | .fconv name, c :: rest => pyFormatScan kw (.fconv2 name c) rest
  | .fconv2 _ _, [] => .error (.valueError "unmatched \x7b in format spec".data)
  | .fconv2 name conv, c :: rest =>
      if c = '}' then
        match emitField kw name (some conv) none with
        | .error e => .error e
        | .ok out =>
          match pyFormatScan kw .lit rest with
          | .error e => .error e
          | .ok tail => .ok (out ++ tail)
      else if c = ':' then pyFormatScan kw (.fspec name (some conv) [] 1) rest
      else .error (.valueError "expected : after conversion specifier".data)
  | .fspec _ _ _ _, [] => .error (.valueError "unmatched \x7b in format spec".data)
  | .fspec name conv acc depth, c :: rest =>
      if c = '{' then pyFormatScan kw (.fspec name conv ('{' :: acc) (depth + 1)) rest
      else if c = '}' then
        if depth = 1 then
          match emitField kw name conv (some acc.reverse) with
          | .error e => .error e
          | .ok out =>
            match pyFormatScan kw .lit rest with
            | .error e => .error e
            | .ok tail => .ok (out ++ tail)
        else pyFormatScan kw (.fspec name conv ('}' :: acc) (depth - 1)) rest
      else pyFormatScan kw (.fspec name conv (c :: acc) depth) rest

/-- Embeds `self.template.format(**variables)`. -/
def pyStrFormat (t : List Char) (kw : Dict) : Except PyErr (List Char) :=
  pyFormatScan kw .lit t

/-!
## `PromptTemplate`

The `except KeyError as e` handler in `PromptTemplate.format` builds
its message with an f-string, which interpolates `str(e)`; for a
KeyError that is the `repr` of the key.  `pyReprStr` models Python
string `repr`.
-/

/-- The single-quote character (written via its code point to keep
string literals free of quote escapes). -/
def squote : Char := Char.ofNat 39

/-- The double-quote character. -/
def dquote : Char := Char.ofNat 34

/-- The backslash character. -/
def bslash : Char := Char.ofNat 92

/-- Lower-case hexadecimal digit. -/
def hexDigitChar (n : Nat) : Char :=
  if n < 10 then Char.ofNat (48 + n) else Char.ofNat (87 + n)

/-- One character of Python string `repr`, given the chosen quote:
backslash and the quote are backslash-escaped; newline, carriage
return and tab use their short escapes; other C0 controls and DEL use
a two-digit hex escape.  Characters above ASCII are kept verbatim
(CPython escapes the non-printable ones; no identifier in any theorem
below is non-ASCII). -/
def pyReprChar (q c : Char) : List Char :=
  if c = bslash then [bslash, bslash]
  else if c = q then [bslash, q]
  else if c = Char.ofNat 10 then [bslash, 'n']
  else if c = Char.ofNat 13 then [bslash, 'r']
  else if c = Char.ofNat 9 then [bslash, 't']
  else if c.toNat < 32 ∨ c.toNat = 127 then
    [bslash, 'x', hexDigitChar (c.toNat / 16), hexDigitChar (c.toNat % 16)]
  else [c]

/-- Python `repr` of a string: quoted with a single quote, unless the
string contains a single quote and no double quote. -/
def pyReprStr (s : List Char) : List Char :=
  let q := if squote ∈ s ∧ ¬ dquote ∈ s then dquote else squote
  q :: (s.map (pyReprChar q)).flatten ++ [q]

/-- The message of the ValueError raised by `PromptTemplate.format` on
a missing variable: the f-string interpolates the caught KeyError,
whose `str` is the `repr` of the missing key. -/
def missingVarMsg (key : List Char) : List Char :=
  "Missing required template variable: ".data ++ pyReprStr key

/-- The `PromptTemplate` record: `__init__` stores the template string
and the keyword defaults verbatim. -/
structure PromptTemplate where
  template : List Char
  defaults : Dict
deriving DecidableEq

/-- Embeds `PromptTemplate.format`: merge the defaults with the call's
keyword arguments (`{**self.defaults, **kwargs}`), delegate to
`str.format`, and re-raise a KeyError as the missing-variable
ValueError.  All other outcomes pass through. -/
def PromptTemplate.format (self : PromptTemplate) (kwargs : Dict) :
    Except PyErr (List Char) :=
  let vars := pyDictMerge self.defaults kwargs
  match pyStrFormat self.template vars with
  | .error (.keyError k) => .error (.valueError (missingVarMsg k))
  | r => r

/-- Embeds `PromptTemplate.get_variables`:
`re.findall` of the variable pattern over the template. -/
def PromptTemplate.get_variables (self : PromptTemplate) : List (List Char) :=
  findallVarPat self.template

/-- Embeds `PromptTemplate.validate`: the set of scanned variables must
be a subset of the set of keys of the merged mapping. -/
def PromptTemplate.validate (self : PromptTemplate) (kwargs : Dict) : Bool :=
  let vars := pyDictMerge self.defaults kwargs
  let required_vars := self.get_variables
  let provided_vars := dictKeys vars
  required_vars.all fun v => provided_vars.any fun k => decide (k = v)

/-- Embeds `PromptTemplate.__str__`: the raw template string. -/
def PromptTemplate.toStr (self : PromptTemplate) : List Char :=
  self.template

/-- The `format` method viewed as a call with the post-call object state:
the body reads `self.template` and `self.defaults`, builds a fresh
merged dict, and assigns no attribute, so the post-call object carries
the same two fields. -/
def PromptTemplate.formatM (self : PromptTemplate) (kwargs : Dict) :
    Except PyErr (List Char) × PromptTemplate :=
  (self.format kwargs, { template := self.template, defaults := self.defaults })

/-- The `validate` method viewed as a call with the post-call object state
(no attribute is assigned). -/
def PromptTemplate.validateM (self : PromptTemplate) (kwargs : Dict) :
    Bool × PromptTemplate :=
  (self.validate kwargs, { template := self.template, defaults := self.defaults })

/-!
## Claim-side reference definitions

The spec describes placeholder handling by a first-open-brace to
next-close-brace scan.  These definitions follow the spec's words (for
refinement comparisons with the embedded code) and are deliberately
written span-wise, unlike the character-at-a-time embeddings above.
-/

/-- The suffix of a string from its first open brace (empty when it
has none). -/
def fromOpen (l : List Char) : List Char :=
  l.dropWhile fun c => decide (c ≠ '{')

/-- The text of a string before its first open brace. -/
def beforeOpen (l : List Char) : List Char :=
  l.takeWhile fun c => decide (c ≠ '{')

/-- The enclosed text of the first span: from just after the first
open brace up to the next close brace. -/
def spanName (l : List Char) : List Char :=
  (fromOpen l).tail.takeWhile fun c => decide (c ≠ '}')

/-- The suffix from the close brace ending the first span (empty when
the open brace is never closed). -/
def fromClose (l : List Char) : List Char :=
  (fromOpen l).tail.dropWhile fun c => decide (c ≠ '}')

/-- Whether the string has a complete first span: an open brace with a
close brace after it. -/
def hasSpan (l : List Char) : Bool :=
  !(fromOpen l).isEmpty && !(fromClose l).isEmpty

/-- The rest of the string after the first complete span. -/
def afterSpan (l : List Char) : List Char :=
  (fromClose l).tail

/-- The identifiers as the claim words them: scan left to right for
non-overlapping spans delimited by a literal open brace and the next
literal close brace, the enclosed text taken verbatim — possibly
empty. -/
def specScanVars (l : List Char) : List (List Char) :=
  if h : hasSpan l then spanName l :: specScanVars (afterSpan l) else []
termination_by l.length
decreasing_by
  have hsp : ¬(fromOpen l).isEmpty ∧ ¬(fromClose l).isEmpty := by
    simpa [hasSpan] using h
  have h2 : (fromOpen l).length ≤ l.length := (List.dropWhile_sublist _).length_le
  have h3 : (fromClose l).length ≤ (fromOpen l).tail.length := (List.dropWhile_sublist _).length_le
  have h4 : (fromOpen l).length ≠ 0 := by
    simpa [List.isEmpty_iff_length_eq_zero] using hsp.1
  have h5 : (fromClose l).length ≠ 0 := by
    simpa [List.isEmpty_iff_length_eq_zero] using hsp.2
  simp only [afterSpan, List.length_tail] at *
  omega

/-- As `specScanVars`, but a span with empty enclosed text contributes
no identifier — the amendment the regex's one-or-more group forces. -/
def specScanVarsNE (l : List Char) : List (List Char) :=
  if h : hasSpan l then
    if spanName l = [] then specScanVarsNE (afterSpan l)
    else spanName l :: specScanVarsNE (afterSpan l)
  else []
termination_by l.length
decreasing_by
  all_goals
    have hsp : ¬(fromOpen l).isEmpty ∧ ¬(fromClose l).isEmpty := by
      simpa [hasSpan] using h
    have h2 : (fromOpen l).length ≤ l.length := (List.dropWhile_sublist _).length_le
    have h3 : (fromClose l).length ≤ (fromOpen l).tail.length := (List.dropWhile_sublist _).length_le
    have h4 : (fromOpen l).length ≠ 0 := by
      simpa [List.isEmpty_iff_length_eq_zero] using hsp.1
    have h5 : (fromClose l).length ≠ 0 := by
      simpa [List.isEmpty_iff_length_eq_zero] using hsp.2
    simp only [afterSpan, List.length_tail] at *
    omega

/-- The success result of `format` as the claim words it: replace each
first-open-brace-to-next-close-brace span with the stringified
effective value of the enclosed identifier.  A span whose identifier
has no value, and trailing text with no complete span, are kept
verbatim (the claims apply this only where every identifier has a
value and every brace belongs to a span). -/
def specSubstitute (kw : Dict) (l : List Char) : List Char :=
  if h : hasSpan l then
    beforeOpen l
      ++ (match dictLookup kw (spanName l) with
          | some v => pyStr v
          | none => '{' :: (spanName l ++ ['}']))
      ++ specSubstitute kw (afterSpan l)
  else l
termination_by l.length
decreasing_by
  have hsp : ¬(fromOpen l).isEmpty ∧ ¬(fromClose l).isEmpty := by
    simpa [hasSpan] using h
  have h2 : (fromOpen l).length ≤ l.length := (List.dropWhile_sublist _).length_le
  have h3 : (fromClose l).length ≤ (fromOpen l).tail.length := (List.dropWhile_sublist _).length_le
  have h4 : (fromOpen l).length ≠ 0 := by
    simpa [List.isEmpty_iff_length_eq_zero] using hsp.1
  have h5 : (fromClose l).length ≠ 0 := by
    simpa [List.isEmpty_iff_length_eq_zero] using hsp.2
  simp only [afterSpan, List.length_tail] at *
  omega

/-- Characters allowed in a simple placeholder identifier: printable
ASCII that is not a brace, `!`, `:`, `.`, a square bracket, a quote or
a backslash — exactly the characters with no special role in
`str.format` field parsing or in the KeyError repr. -/
def simpleIdentChar (c : Char) : Bool :=
  decide (32 ≤ c.toNat) && decide (c.toNat ≤ 126) &&
    decide (c ≠ '{') && decide (c ≠ '}') && decide (c ≠ '!') && decide (c ≠ ':') &&
    decide (c ≠ '.') && decide (c ≠ '[') && decide (c ≠ ']') &&
    decide (c ≠ squote) && decide (c ≠ bslash)

/-- A simple identifier: non-empty, simple characters only, and not
all digits (all-digit field names are positional for `str.format`). -/
def simpleName (l : List Char) : Bool :=
  !l.isEmpty && l.all simpleIdentChar && !(l.all (·.isDigit))

/-- Scan deciding simplicity: every open brace starts a placeholder
with a simple identifier closed by the next close brace, and every
close brace ends one.  `none` in literal text, `some acc` (reversed
identifier prefix) inside a placeholder. -/
def simpleScan : Option (List Char) → List Char → Bool
  | none, [] => true
  | none, c :: rest =>
      if c = '{' then simpleScan (some []) rest
      else if c = '}' then false
      else simpleScan none rest
  | some _, [] => false
  | some acc, c :: rest =>
      if c = '}' then simpleName acc.reverse && simpleScan none rest
      else simpleIdentChar c && simpleScan (some (c :: acc)) rest

/-- Templates whose braces all form simple placeholders. -/
def simpleTemplate (t : List Char) : Bool :=
  simpleScan none t

/-!
## `PromptBuilder`

`builder.py` mutates Python objects in place: `self.messages` is a list
object holding references to message dicts, `build("messages")` and
`build("chat")` return `self.messages.copy()` — a new list object whose
entries are references to the *same* dicts.  To reason about that
aliasing, the builder is embedded against an explicit store of message
dict objects and list objects, addressed by allocation order.  The
caller-side in-place mutations (`lst.append(...)`, `msg["content"] =
...`) are modelled by `listUpdate` and `dictUpdate`.
-/

/-- A message record `{"role": ..., "content": ...}`. -/
structure Msg where
  role : String
  content : String
deriving DecidableEq

/-- The store of Python objects backing builders: message dicts and
lists of dict references, each addressed by position (allocation
order). -/
structure Store where
  dicts : List Msg
  lists : List (List Nat)
deriving DecidableEq

/-- The contents of list object `r` (a dangling reference reads as the
empty list; the builder API never creates one). -/
def listGet (σ : Store) (r : Nat) : List Nat :=
  σ.lists.getD r []

/-- The message dict at address `a` (a dangling reference reads as an
empty record; the builder API never creates one). -/
def dictGet (σ : Store) (a : Nat) : Msg :=
  σ.dicts.getD a ⟨"", ""⟩

/-- The `PromptBuilder` object: a reference to its `self.messages`
list object, and its `self.context` mapping (no claim observes
aliasing of the context dict, so it is carried as a field). -/
structure PromptBuilder where
  msgsRef : Nat
  context : List (String × String)
deriving DecidableEq

/-- Embeds `PromptBuilder.__init__`: allocate a fresh empty messages
list. -/
def PromptBuilder.init (σ : Store) : PromptBuilder × Store :=
  (⟨σ.lists.length, []⟩, { σ with lists := σ.lists ++ [[]] })

/-- Embeds `PromptBuilder.add_message`: allocate the message dict and
append its reference to the builder's messages list, in place.  The
method returns `self`; the builder record is unchanged. -/
def PromptBuilder.add_message (b : PromptBuilder) (role content : String)
    (σ : Store) : Store :=
  let addr := σ.dicts.length
  { σ with
    dicts := σ.dicts ++ [⟨role, content⟩],
    lists := σ.lists.set b.msgsRef (listGet σ b.msgsRef ++ [addr]) }

/-- Embeds `PromptBuilder.add_system`. -/
def PromptBuilder.add_system (b : PromptBuilder) (content : String) (σ : Store) : Store :=
  b.add_message "system" content σ

/-- Embeds `PromptBuilder.add_user`. -/
def PromptBuilder.add_user (b : PromptBuilder) (content : String) (σ : Store) : Store :=
  b.add_message "user" content σ

/-- Embeds `PromptBuilder.add_assistant`. -/
def PromptBuilder.add_assistant (b : PromptBuilder) (content : String) (σ : Store) : Store :=
  b.add_message "assistant" content σ

/-- Insert-or-overwrite on the context mapping (`self.context[key] =
value`). -/
def ctxSet (ctx : List (String × String)) (key value : String) : List (String × String) :=
  if ctx.any fun p => decide (p.1 = key) then
    ctx.map fun p => if p.1 = key then (key, value) else p
  else ctx ++ [(key, value)]

/-- Embeds `PromptBuilder.set_context`. -/
def PromptBuilder.set_context (b : PromptBuilder) (key value : String)
    (σ : Store) : PromptBuilder × Store :=
  (⟨b.msgsRef, ctxSet b.context key value⟩, σ)

/-- Embeds `PromptBuilder.clear`: `self.messages = []` rebinds the
attribute to a freshly allocated empty list, and `self.context = {}`
resets the context. -/
def PromptBuilder.clear (b : PromptBuilder) (σ : Store) : PromptBuilder × Store :=
  (⟨σ.lists.length, []⟩, { σ with lists := σ.lists ++ [[]] })

/-- The message records reachable from list object `r`: what Python
sees when it iterates such a list of dict references. -/
def renderList (σ : Store) (r : Nat) : List Msg :=
  (listGet σ r).map (dictGet σ)

/-- The builder's current message records (`self.messages`, read
through the store). -/
def render (b : PromptBuilder) (σ : Store) : List Msg :=
  renderList σ b.msgsRef

/-- Python `str.upper` — modelled characterwise (exact on ASCII, which
is all the claims exercise; CPython's full case mapping can also
expand, e.g. the sharp s). -/
def pyUpper (s : String) : String :=
  ⟨s.data.map Char.toUpper⟩

/-- Python `sep.join(parts)`: the first part, then each further part
preceded by the separator. -/
def pyJoin (sep : String) : List String → String
  | [] => ""
  | s :: rest => rest.foldl (fun acc t => acc ++ sep ++ t) s

/-- Embeds `PromptBuilder._build_string`: accumulate
`f"{role.upper()}: {content}"` lines, then join with a blank line. -/
def PromptBuilder.build_string (b : PromptBuilder) (σ : Store) : String :=
  let parts := (render b σ).foldl
    (fun ps m => ps ++ [pyUpper m.role ++ ": " ++ m.content]) []
  pyJoin "\n\n" parts

/-- A successful `build` outcome: the reference to the fresh list copy
(for `"messages"`), the built string, or the fresh copy wrapped in a
`{"messages": ...}` record (for `"chat"`). -/
inductive BuildResult where
  | messagesRef (r : Nat)
  | str (s : String)
  | chatRef (r : Nat)
deriving DecidableEq

/-- The error raised by `build`: `ValueError(f"Unknown format: {format}")`. -/
inductive BuildErr where
  | invalidArgument (msg : String)
deriving DecidableEq

/-- Embeds `self.messages.copy()`: allocate a new list object with the same
dict references. -/
def copyList (σ : Store) (r : Nat) : Nat × Store :=
  (σ.lists.length, { σ with lists := σ.lists ++ [listGet σ r] })

/-- Embeds `PromptBuilder.build`: dispatch on the format selector in
source order; the unknown-format branch raises before any allocation
or mutation, so it returns the store unchanged. -/
def PromptBuilder.build (b : PromptBuilder) (format : String) (σ : Store) :
    Except BuildErr BuildResult × Store :=
  if format = "messages" then
    let (r, σ2) := copyList σ b.msgsRef
    (.ok (.messagesRef r), σ2)
  else if format = "string" then
    (.ok (.str (b.build_string σ)), σ)
  else if format = "chat" then
    let (r, σ2) := copyList σ b.msgsRef
    (.ok (.chatRef r), σ2)
  else
    (.error (.invalidArgument ("Unknown format: " ++ format)), σ)

/-- Embeds `PromptBuilder.__len__`: `len(self.messages)`. -/
def PromptBuilder.len (b : PromptBuilder) (σ : Store) : Nat :=
  (listGet σ b.msgsRef).length

/-- Embeds `PromptBuilder.__str__`: delegates to `_build_string`. -/
def PromptBuilder.toStr (b : PromptBuilder) (σ : Store) : String :=
  b.build_string σ

/-- A caller-side in-place structural mutation of list object `r`
(append, removal, item assignment, reordering, clearing: any function
of its previous contents). -/
def listUpdate (r : Nat) (f : List Nat → List Nat) (σ : Store) : Store :=
  { σ with lists := σ.lists.set r (f (listGet σ r)) }

/-- A caller-side in-place mutation of the message dict at address `a`
(item assignment on a Message record). -/
def dictUpdate (a : Nat) (f : Msg → Msg) (σ : Store) : Store :=
  { σ with dicts := σ.dicts.set a (f (dictGet σ a)) }

/-- One `add_*`/`add_message` call, as data (for claims quantifying
over call sequences). -/
inductive AddOp where
  | system (content : String)
  | user (content : String)
  | assistant (content : String)
  | message (role content : String)
deriving DecidableEq

/-- The message record an `AddOp` appends. -/
def AddOp.msg : AddOp → Msg
  | .system c => ⟨"system", c⟩
  | .user c => ⟨"user", c⟩
  | .assistant c => ⟨"assistant", c⟩
  | .message r c => ⟨r, c⟩

/-- Perform one `AddOp` on the builder. -/
def applyAdd (op : AddOp) (b : PromptBuilder) (σ : Store) : Store :=
  match op with
  | .system c => b.add_system c σ
  | .user c => b.add_user c σ
  | .assistant c => b.add_assistant c σ
  | .message r c => b.add_message r c σ

/-- Perform a sequence of `AddOp`s in order. -/
def applyAdds (b : PromptBuilder) : List AddOp → Store → Store
  | [], σ => σ
  | op :: rest, σ => applyAdds b rest (applyAdd op b σ)

/-- The spec's description of the string format: for each message the
line "ROLE: content" with the role upper-cased, the lines separated by
a blank line. -/
def sepConcat (sep : String) : List String → String
  | [] => ""
  | [s] => s
  | s :: rest => s ++ sep ++ sepConcat sep rest

/-!
## Concrete checks

Sample evaluations of the embedded operations, matching the behavior
of the Python originals on the same inputs.
-/

example : findallVarPat "Hello {name}, {score}!".data = ["name".data, "score".data] := by decide

example : findallVarPat ['{', '}'] = [] := by decide

example : findallVarPat ['{', '{', 'a', '}', '}'] = [['{', 'a']] := by decide

example : findallVarPat ['{', 'a', '{', 'b', '}'] = [['a', '{', 'b']] := by decide

example : findallVarPat ['{', 'a'] = [] := by decide

example : pyStrFormat "Hello {name}!".data [("name".data, .str "Alice".data)]
    = .ok "Hello Alice!".data := by decide

example : pyStrFormat ['{', '{'] [] = .ok ['{'] := by decide

example : pyStrFormat ['{', 'a', ':', '}'] [("a".data, .str "x".data)] = .ok "x".data := by decide

example : pyStrFormat ['{', 'a', '}'] [] = .error (.keyError "a".data) := by decide

example : pyStrFormat "{n},{n}".data [("n".data, .int 5)] = .ok "5,5".data := by decide

example :
    PromptTemplate.format ⟨"Hello {name}".data, []⟩ [("name".data, .str "Alice".data)]
      = .ok "Hello Alice".data := by decide

example :
    PromptTemplate.format ⟨"Hello {name}".data, [("name".data, .str "World".data)]⟩ []
      = .ok "Hello World".data := by decide

example :
    PromptTemplate.format ⟨"Hello {name}".data, []⟩ []
      = .error (.valueError (missingVarMsg "name".data)) := by decide

example :
    missingVarMsg "name".data
      = "Missing required template variable: ".data ++ squote :: ("name".data ++ [squote]) := by
  decide

example :
    PromptTemplate.validate ⟨"Hello {name}, {age}".data, []⟩ [("name".data, .str "A".data)]
      = false := by decide

example : simpleTemplate "Hello {name}, you are {age} years old.".data = true := by decide

example : simpleTemplate ['{', '{'] = false := by decide

example : simpleTemplate ['{', 'a', ':', '}'] = false := by decide

example : simpleTemplate ['{', '}'] = false := by decide

example : specScanVars ['{', '}'] = [[]] := by
  rw [specScanVars, dif_pos (by decide)]
  show ([] : List Char) :: specScanVars [] = [[]]
  rw [specScanVars, dif_neg (by decide)]

example : specSubstitute [] ['{', '{'] = ['{', '{'] := by
  rw [specSubstitute, dif_neg (by decide)]

example :
    (let σ0 : Store := ⟨[], []⟩
     let p := PromptBuilder.init σ0
     let σ2 := p.1.add_user "Usr" (p.1.add_system "Sys" p.2)
     render p.1 σ2 = [⟨"system", "Sys"⟩, ⟨"user", "Usr"⟩] ∧
       p.1.build_string σ2 = "SYSTEM: Sys\n\nUSER: Usr" ∧ p.1.len σ2 = 2) := by
  decide

/-!
## Dictionary lemmas
-/

theorem dictLookup_append (a b : List (List Char × PyVal)) (x : List Char) :
    dictLookup (a ++ b) x =
      match dictLookup a x with
      | some v => some v
      | none => dictLookup b x := by
  induction a with
  | nil => rfl
  | cons p rest ih =>
    by_cases hx : p.1 = x
    · simp [dictLookup, hx]
    · simpa [dictLookup, hx] using ih

theorem dictLookup_mergeMap (d k : Dict) (x : List Char) :
    dictLookup (d.map fun p => (p.1, (dictLookup k p.1).getD p.2)) x =
      match dictLookup d x with
      | some v => some ((dictLookup k x).getD v)
      | none => none := by
  induction d with
  | nil => rfl
  | cons p rest ih =>
    by_cases hx : p.1 = x
    · subst hx
      simp [dictLookup]
    · simpa [dictLookup, hx] using ih

theorem dictLookup_mergeFilter (d k : Dict) (x : List Char) :
    dictLookup (k.filter fun p => (dictLookup d p.1).isNone) x =
      match dictLookup d x with
      | some _ => none
      | none => dictLookup k x := by
  induction k with
  | nil => cases hd : dictLookup d x <;> rfl
  | cons p rest ih =>
    obtain ⟨pk, pv⟩ := p
    rw [List.filter_cons]
    by_cases hx : pk = x
    · subst hx
      cases hd : dictLookup d pk with
      | some v => simp [hd, ih]
      | none => simp [hd, dictLookup]
    · cases hd : dictLookup d pk with
      | some v =>
        simp only [hd, Option.isNone_some, Bool.false_eq_true, if_false, ih]
        cases dictLookup d x with
        | some v2 => rfl
        | none => simp [dictLookup, hx]
      | none =>
        simp only [hd, Option.isNone_none, if_true, dictLookup, if_neg hx, ih]

theorem dictLookup_pyDictMerge (d k : Dict) (x : List Char) :
    dictLookup (pyDictMerge d k) x =
      match dictLookup k x with
      | some v => some v
      | none => dictLookup d x := by
  unfold pyDictMerge
  rw [dictLookup_append, dictLookup_mergeMap, dictLookup_mergeFilter]
  cases hd : dictLookup d x <;> cases hk : dictLookup k x <;> simp [Option.getD]

theorem hasKey_pyDictMerge (d k : Dict) (x : List Char) :
    hasKey (pyDictMerge d k) x = (hasKey d x || hasKey k x) := by
  unfold hasKey
  rw [dictLookup_pyDictMerge]
  cases hk : dictLookup k x <;> cases hd : dictLookup d x <;> simp

theorem mem_dictKeys_iff_hasKey (d : Dict) (x : List Char) :
    x ∈ dictKeys d ↔ hasKey d x = true := by
  unfold dictKeys hasKey
  induction d with
  | nil => simp [dictLookup]
  | cons p rest ih =>
    obtain ⟨pk, pv⟩ := p
    by_cases hx : pk = x
    · subst hx
      constructor
      · intro _
        show (if pk = pk then some pv else dictLookup rest pk).isSome = true
        rw [if_pos rfl]
        rfl
      · intro _
        rw [List.map_cons]
        exact List.mem_cons_self _ _
    · simp only [List.map_cons, List.mem_cons, dictLookup, if_neg hx]
      constructor
      · rintro (h | h)
        · exact absurd h.symm hx
        · exact ih.mp h
      · intro h
        exact Or.inr (ih.mpr h)

/-- C5: for every template, default mapping and override mapping,
`validate(overrides)` returns true iff every identifier returned by
`get_variables()` is a key of the effective mapping (defaults overlaid
with overrides), and false otherwise; it is a total Boolean predicate
(the embedded body has no failure outcome) computed without performing
any substitution. -/
theorem validate_iff_all_covered (t : List Char) (d o : Dict) :
    PromptTemplate.validate ⟨t, d⟩ o = true ↔
      ∀ v ∈ PromptTemplate.get_variables ⟨t, d⟩, hasKey (pyDictMerge d o) v = true := by
  unfold PromptTemplate.validate
  simp only [List.all_eq_true, List.any_eq_true, decide_eq_true_eq]
  constructor
  · intro h v hv
    obtain ⟨k, hk, rfl⟩ := h v hv
    exact (mem_dictKeys_iff_hasKey _ _).mp hk
  · intro h v hv
    exact ⟨v, (mem_dictKeys_iff_hasKey _ _).mpr (h v hv), rfl⟩

/-- C6: the stored defaults are never mutated: a template constructed
from `t` and `d` still carries exactly `t` and `d` after any `format`
or `validate` call (the embedded methods assign no attribute), and a
later call without overrides behaves exactly as on the original
object. -/
theorem format_validate_preserve_defaults (t : List Char) (d o o₂ : Dict) :
    ((PromptTemplate.mk t d).formatM o).2 = PromptTemplate.mk t d ∧
      ((PromptTemplate.mk t d).validateM o).2 = PromptTemplate.mk t d ∧
      ((PromptTemplate.mk t d).formatM o).2.defaults = d ∧
      (((PromptTemplate.mk t d).formatM o).2).format o₂ = (PromptTemplate.mk t d).format o₂ ∧
      (((PromptTemplate.mk t d).formatM o).2).validate o₂ = (PromptTemplate.mk t d).validate o₂ :=
  ⟨rfl, rfl, rfl, rfl, rfl⟩

/-- C9: `build` on any format selector other than the three recognized
ones returns the `Unknown format` error naming the offending selector,
and leaves the store — hence the builder's messages and context —
untouched. -/
theorem build_unknown_format (b : PromptBuilder) (σ : Store) (format : String)
    (h1 : format ≠ "messages") (h2 : format ≠ "string") (h3 : format ≠ "chat") :
    b.build format σ = (.error (.invalidArgument ("Unknown format: " ++ format)), σ) := by
  unfold PromptBuilder.build
  rw [if_neg h1, if_neg h2, if_neg h3]

theorem build_unknown_format_witness :
    ("bogus" ≠ "messages" ∧ "bogus" ≠ "string" ∧ "bogus" ≠ "chat") ∧
      PromptBuilder.build ⟨0, []⟩ "bogus" ⟨[⟨"user", "Test"⟩], [[0]]⟩
        = (.error (.invalidArgument ("Unknown format: " ++ "bogus")),
           ⟨[⟨"user", "Test"⟩], [[0]]⟩) :=
  ⟨⟨by decide, by decide, by decide⟩,
   build_unknown_format ⟨0, []⟩ ⟨[⟨"user", "Test"⟩], [[0]]⟩ "bogus"
     (by decide) (by decide) (by decide)⟩

/-!
## Store access lemmas
-/

theorem getD_append_last {α : Type} (l : List α) (x d : α) :
    (l ++ [x]).getD l.length d = x := by
  rw [List.getD_eq_getElem?_getD, List.getElem?_append_right (Nat.le_refl _), Nat.sub_self]
  rfl

theorem getD_append_lt {α : Type} (l : List α) (x d : α) (i : Nat) (h : i < l.length) :
    (l ++ [x]).getD i d = l.getD i d := by
  rw [List.getD_eq_getElem?_getD, List.getElem?_append, if_pos h,
    ← List.getD_eq_getElem?_getD]

theorem getD_set_self {α : Type} (l : List α) (i : Nat) (a d : α) (h : i < l.length) :
    (l.set i a).getD i d = a := by
  rw [List.getD_eq_getElem?_getD, List.getElem?_set_self h]
  rfl

theorem getD_set_ne {α : Type} (l : List α) (i j : Nat) (a d : α) (h : i ≠ j) :
    (l.set i a).getD j d = l.getD j d := by
  rw [List.getD_eq_getElem?_getD, List.getElem?_set_ne h, ← List.getD_eq_getElem?_getD]

/-!
## Builder lemmas
-/

theorem applyAdd_eq_add_message (op : AddOp) (b : PromptBuilder) (σ : Store) :
    applyAdd op b σ = b.add_message op.msg.role op.msg.content σ := by
  cases op <;> rfl

theorem listGet_add_message_self (b : PromptBuilder) (σ : Store) (role content : String)
    (h1 : b.msgsRef < σ.lists.length) :
    listGet (b.add_message role content σ) b.msgsRef
      = listGet σ b.msgsRef ++ [σ.dicts.length] :=
  getD_set_self σ.lists b.msgsRef _ [] h1

theorem dictGet_add_message_lt (b : PromptBuilder) (σ : Store) (role content : String)
    (a : Nat) (h : a < σ.dicts.length) :
    dictGet (b.add_message role content σ) a = dictGet σ a :=
  getD_append_lt σ.dicts ⟨role, content⟩ ⟨"", ""⟩ a h

theorem dictGet_add_message_new (b : PromptBuilder) (σ : Store) (role content : String) :
    dictGet (b.add_message role content σ) σ.dicts.length = ⟨role, content⟩ :=
  getD_append_last σ.dicts ⟨role, content⟩ ⟨"", ""⟩

theorem render_add_message (b : PromptBuilder) (σ : Store) (role content : String)
    (h1 : b.msgsRef < σ.lists.length)
    (h2 : ∀ a ∈ listGet σ b.msgsRef, a < σ.dicts.length) :
    render b (b.add_message role content σ) = render b σ ++ [Msg.mk role content] ∧
      (b.add_message role content σ).lists.length = σ.lists.length ∧
      (∀ a ∈ listGet (b.add_message role content σ) b.msgsRef,
        a < (b.add_message role content σ).dicts.length) := by
  refine ⟨?_, ?_, ?_⟩
  · show renderList _ _ = _
    unfold renderList
    rw [listGet_add_message_self b σ role content h1, List.map_append]
    congr 1
    · exact List.map_congr_left fun a ha => dictGet_add_message_lt b σ role content a (h2 a ha)
    · simp only [List.map_cons, List.map_nil]
      rw [dictGet_add_message_new]
  · show (σ.lists.set b.msgsRef (listGet σ b.msgsRef ++ [σ.dicts.length])).length = σ.lists.length
    rw [List.length_set]
  · intro a ha
    rw [listGet_add_message_self b σ role content h1] at ha
    show a < (σ.dicts ++ [Msg.mk role content]).length
    rw [List.length_append]
    rcases List.mem_append.mp ha with h | h
    · have := h2 a h
      omega
    · simp only [List.mem_singleton] at h
      simp [h]

theorem render_applyAdds (ops : List AddOp) (b : PromptBuilder) (σ : Store)
    (h1 : b.msgsRef < σ.lists.length)
    (h2 : ∀ a ∈ listGet σ b.msgsRef, a < σ.dicts.length) :
    render b (applyAdds b ops σ) = render b σ ++ ops.map AddOp.msg ∧
      (applyAdds b ops σ).lists.length = σ.lists.length := by
  induction ops generalizing σ with
  | nil => simp [applyAdds]
  | cons op rest ih =>
    rw [applyAdds, applyAdd_eq_add_message]
    obtain ⟨hr, hl, hw⟩ := render_add_message b σ op.msg.role op.msg.content h1 h2
    have h1' : b.msgsRef < (b.add_message op.msg.role op.msg.content σ).lists.length := by
      rw [hl]; exact h1
    obtain ⟨ihr, ihl⟩ := ih _ h1' hw
    constructor
    · rw [ihr, hr, List.map_cons, List.append_assoc]
      rfl
    · rw [ihl, hl]

theorem copyList_fst (σ : Store) (r : Nat) : (copyList σ r).1 = σ.lists.length := rfl

theorem copyList_spec (σ : Store) (r : Nat) :
    listGet (copyList σ r).2 (copyList σ r).1 = listGet σ r ∧
      renderList (copyList σ r).2 (copyList σ r).1 = renderList σ r := by
  have hget : listGet (copyList σ r).2 (copyList σ r).1 = listGet σ r :=
    getD_append_last σ.lists (listGet σ r) []
  refine ⟨hget, ?_⟩
  unfold renderList
  rw [hget]
  rfl

theorem freshBuilder_adds (σ0 : Store) (ops : List AddOp) :
    let b : PromptBuilder := ⟨σ0.lists.length, []⟩
    let σ1 : Store := { σ0 with lists := σ0.lists ++ [[]] }
    let σN := applyAdds b ops σ1
    b.len σN = ops.length ∧
      render b σN = ops.map AddOp.msg ∧
      (b.build "messages" σN).1 = .ok (.messagesRef σN.lists.length) ∧
      renderList (b.build "messages" σN).2 σN.lists.length = ops.map AddOp.msg := by
  intro b σ1 σN
  have h1 : b.msgsRef < σ1.lists.length := by
    show σ0.lists.length < (σ0.lists ++ [[]]).length
    simp
  have hg : listGet σ1 b.msgsRef = [] := getD_append_last σ0.lists [] []
  have h2 : ∀ a ∈ listGet σ1 b.msgsRef, a < σ1.dicts.length := by
    rw [hg]
    intro a ha
    cases ha
  obtain ⟨hr, _⟩ := render_applyAdds ops b σ1 h1 h2
  have hbase : render b σ1 = [] := by
    unfold render renderList
    rw [hg]
    rfl
  have hrender : render b σN = ops.map AddOp.msg := by
    rw [hr, hbase, List.nil_append]
  have hbuild : b.build "messages" σN = (.ok (.messagesRef σN.lists.length), (copyList σN b.msgsRef).2) := by
    unfold PromptBuilder.build
    rw [if_pos rfl]
    rfl
  refine ⟨?_, hrender, ?_, ?_⟩
  · show (listGet σN b.msgsRef).length = ops.length
    have : (render b σN).length = (listGet σN b.msgsRef).length := List.length_map _ _
    rw [hrender] at this
    rw [← this, List.length_map]
  · rw [hbuild]
  · rw [hbuild]
    have := (copyList_spec σN b.msgsRef).2
    rw [copyList_fst] at this
    show renderList (copyList σN b.msgsRef).2 σN.lists.length = ops.map AddOp.msg
    rw [this]
    exact hrender

/-- C7: for every sequence of `add_*`/`add_message` calls on a fresh
(or freshly cleared) builder, the count equals the number of calls,
and `build("messages")` returns exactly those role/content records in
call order — no reordering, no deduplication (the sequence of calls is
arbitrary, duplicates included). -/
theorem adds_count_and_order (σ0 : Store) (b0 : PromptBuilder) (ops : List AddOp) :
    (let p := PromptBuilder.init σ0
     let σN := applyAdds p.1 ops p.2
     p.1.len σN = ops.length ∧
       render p.1 σN = ops.map AddOp.msg ∧
       (p.1.build "messages" σN).1 = .ok (.messagesRef σN.lists.length) ∧
       renderList (p.1.build "messages" σN).2 σN.lists.length = ops.map AddOp.msg) ∧
    (let p := b0.clear σ0
     let σN := applyAdds p.1 ops p.2
     p.1.len σN = ops.length ∧
       render p.1 σN = ops.map AddOp.msg ∧
       (p.1.build "messages" σN).1 = .ok (.messagesRef σN.lists.length) ∧
       renderList (p.1.build "messages" σN).2 σN.lists.length = ops.map AddOp.msg) :=
  ⟨freshBuilder_adds σ0 ops, freshBuilder_adds σ0 ops⟩

/-!
## String join lemmas
-/

theorem foldl_append_singleton {α : Type} (f : α → String) (l : List α) (init : List String) :
    l.foldl (fun ps m => ps ++ [f m]) init = init ++ l.map f := by
  induction l generalizing init with
  | nil => simp
  | cons x rest ih =>
    rw [List.foldl_cons, ih, List.map_cons, List.append_assoc]
    rfl

theorem foldl_join_aux (sep : String) (rest : List String) (s : String) :
    rest.foldl (fun acc t => acc ++ sep ++ t) s = sepConcat sep (s :: rest) := by
  induction rest generalizing s with
  | nil => rfl
  | cons t rest2 ih =>
    rw [List.foldl_cons, ih]
    cases rest2 with
    | nil => rfl
    | cons u rest3 =>
      show s ++ sep ++ t ++ sep ++ sepConcat sep (u :: rest3)
          = s ++ sep ++ (t ++ sep ++ sepConcat sep (u :: rest3))
      simp [String.append_assoc]

theorem pyJoin_eq_sepConcat (sep : String) (l : List String) :
    pyJoin sep l = sepConcat sep l := by
  cases l with
  | nil => rfl
  | cons s rest => exact foldl_join_aux sep rest s

/-- C8: `build("string")` produces, for each message in insertion
order, the line formed by the upper-cased role, a colon-space, and the
content, joined with one blank line between consecutive lines; and
rendering the builder as a display string uses the same algorithm. -/
theorem build_string_line_format (b : PromptBuilder) (σ : Store) :
    b.build_string σ =
      sepConcat "\n\n" ((render b σ).map fun m => pyUpper m.role ++ ": " ++ m.content) ∧
      b.toStr σ = b.build_string σ ∧
      b.build "string" σ = (.ok (.str (b.build_string σ)), σ) := by
  refine ⟨?_, rfl, ?_⟩
  · unfold PromptBuilder.build_string
    rw [foldl_append_singleton, List.nil_append, pyJoin_eq_sepConcat]
  · unfold PromptBuilder.build
    rw [if_neg (by decide), if_pos rfl]

/-!
## Aliasing: `build("messages")` and caller-side mutation
-/

theorem build_messages_eq (b : PromptBuilder) (σ : Store) :
    b.build "messages" σ =
      (.ok (.messagesRef σ.lists.length),
        { σ with lists := σ.lists ++ [listGet σ b.msgsRef] }) := by
  unfold PromptBuilder.build
  rw [if_pos rfl]
  rfl

theorem render_listUpdate_ne (b : PromptBuilder) (σ : Store) (r : Nat)
    (f : List Nat → List Nat) (h : r ≠ b.msgsRef) :
    render b (listUpdate r f σ) = render b σ := by
  unfold render renderList listGet dictGet listUpdate
  rw [getD_set_ne σ.lists r b.msgsRef _ [] h]

theorem render_dictUpdate (b : PromptBuilder) (σ : Store) (i : Nat) (fm : Msg → Msg)
    (hi : i < σ.dicts.length) :
    render b (dictUpdate i fm σ) =
      (listGet σ b.msgsRef).map fun a => if a = i then fm (dictGet σ a) else dictGet σ a := by
  unfold render renderList dictUpdate listGet dictGet
  apply List.map_congr_left
  intro a ha
  by_cases hai : a = i
  · subst hai
    rw [if_pos rfl]
    exact getD_set_self σ.dicts a _ _ hi
  · rw [if_neg hai]
    exact getD_set_ne σ.dicts i a _ _ fun hh => hai hh.symm

theorem render_append_list (b : PromptBuilder) (σ : Store) (x : List Nat)
    (h1 : b.msgsRef < σ.lists.length) :
    render b { σ with lists := σ.lists ++ [x] } = render b σ := by
  unfold render renderList listGet dictGet
  rw [getD_append_lt σ.lists x [] b.msgsRef h1]

/-- C1 (amended): `build("messages")` returns a shallow defensive
copy.  The returned sequence is a freshly allocated list object,
distinct from the builder's own, so any structural mutation of the
returned list (append, removal, replacement, reordering — any function
of its contents) leaves the builder's subsequent build results
unchanged.  The Message records it holds, however, are shared by
reference with the builder: mutating such a record is visible in the
builder's subsequent builds at every position holding that record. -/
theorem build_messages_shallow_copy (b : PromptBuilder) (σ : Store)
    (h1 : b.msgsRef < σ.lists.length)
    (h2 : ∀ a ∈ listGet σ b.msgsRef, a < σ.dicts.length) :
    (b.build "messages" σ).1 = .ok (.messagesRef σ.lists.length) ∧
      σ.lists.length ≠ b.msgsRef ∧
      listGet (b.build "messages" σ).2 σ.lists.length = listGet σ b.msgsRef ∧
      (∀ f, render b (listUpdate σ.lists.length f (b.build "messages" σ).2) = render b σ) ∧
      (∀ f, b.build_string (listUpdate σ.lists.length f (b.build "messages" σ).2)
        = b.build_string σ) ∧
      (∀ i fm, i ∈ listGet (b.build "messages" σ).2 σ.lists.length →
        render b (dictUpdate i fm (b.build "messages" σ).2) =
          (listGet σ b.msgsRef).map fun a =>
            if a = i then fm (dictGet σ a) else dictGet σ a) := by
  have hne : σ.lists.length ≠ b.msgsRef := Nat.ne_of_gt h1
  rw [build_messages_eq]
  have hcopy : listGet { σ with lists := σ.lists ++ [listGet σ b.msgsRef] } σ.lists.length
      = listGet σ b.msgsRef := getD_append_last σ.lists (listGet σ b.msgsRef) []
  have hrender2 : render b { σ with lists := σ.lists ++ [listGet σ b.msgsRef] } = render b σ :=
    render_append_list b σ _ h1
  have hlist : ∀ f, render b (listUpdate σ.lists.length f
      { σ with lists := σ.lists ++ [listGet σ b.msgsRef] }) = render b σ := by
    intro f
    rw [render_listUpdate_ne b _ σ.lists.length f hne, hrender2]
  refine ⟨rfl, hne, hcopy, hlist, ?_, ?_⟩
  · intro f
    unfold PromptBuilder.build_string
    rw [hlist f]
  · intro i fm hi
    rw [hcopy] at hi
    have hilen : i < σ.dicts.length := h2 i hi
    show render b (dictUpdate i fm { σ with lists := σ.lists ++ [listGet σ b.msgsRef] })
        = (listGet σ b.msgsRef).map fun a => if a = i then fm (dictGet σ a) else dictGet σ a
    rw [render_dictUpdate b { σ with lists := σ.lists ++ [listGet σ b.msgsRef] } i fm hilen]
    have hlg : listGet { σ with lists := σ.lists ++ [listGet σ b.msgsRef] } b.msgsRef
        = listGet σ b.msgsRef := getD_append_lt σ.lists _ [] b.msgsRef h1
    rw [hlg]
    rfl

theorem build_messages_shallow_copy_witness :
    (let σ : Store := ⟨[⟨"user", "hi"⟩], [[0]]⟩
     let b : PromptBuilder := ⟨0, []⟩
     (b.msgsRef < σ.lists.length ∧ ∀ a ∈ listGet σ b.msgsRef, a < σ.dicts.length) ∧
       render b (listUpdate σ.lists.length (fun _ => []) (b.build "messages" σ).2)
         = render b σ ∧
       render b (dictUpdate 0 (fun m => { m with content := "bye" }) (b.build "messages" σ).2)
         = (listGet σ b.msgsRef).map fun a =>
             if a = 0 then { dictGet σ a with content := "bye" } else dictGet σ a) :=
  ⟨⟨by decide, by decide⟩,
   (build_messages_shallow_copy ⟨0, []⟩ ⟨[⟨"user", "hi"⟩], [[0]]⟩
      (by decide) (by decide)).2.2.2.1 (fun _ => []),
   (build_messages_shallow_copy ⟨0, []⟩ ⟨[⟨"user", "hi"⟩], [[0]]⟩
      (by decide) (by decide)).2.2.2.2.2 0 (fun m => { m with content := "bye" }) (by decide)⟩

/-- C1 is false as stated: the copy is shallow.  With one message
`{"user", "hi"}`, mutating the Message record reached from the
sequence returned by `build("messages")` changes the builder's
subsequent `build` results (both the rendered records and the built
string). -/
theorem build_messages_not_deep_copy :
    (let σ : Store := ⟨[⟨"user", "hi"⟩], [[0]]⟩
     let b : PromptBuilder := ⟨0, []⟩
     let σ2 := (b.build "messages" σ).2
     let σ3 := dictUpdate 0 (fun m => { m with content := "bye" }) σ2
     (b.build "messages" σ).1 = .ok (.messagesRef 1) ∧
       0 ∈ listGet σ2 1 ∧
       render b σ2 = [⟨"user", "hi"⟩] ∧
       render b σ3 = [⟨"user", "bye"⟩] ∧
       render b σ3 ≠ render b σ2 ∧
       b.build_string σ3 ≠ b.build_string σ2) := by
  decide

/-!
## Span lemmas

How the claim-side span functions step over one character, and over a
complete placeholder.
-/

theorem takeWhile_all {α : Type} (p : α → Bool) (l : List α) (h : ∀ c ∈ l, p c = true) :
    l.takeWhile p = l := by
  induction l with
  | nil => rfl
  | cons c rest ih =>
    rw [List.takeWhile_cons_of_pos (h c (List.mem_cons_self c rest))]
    rw [ih fun d hd => h d (List.mem_cons_of_mem c hd)]

theorem dropWhile_all {α : Type} (p : α → Bool) (l : List α) (h : ∀ c ∈ l, p c = true) :
    l.dropWhile p = [] := by
  induction l with
  | nil => rfl
  | cons c rest ih =>
    rw [List.dropWhile_cons_of_pos (h c (List.mem_cons_self c rest))]
    exact ih fun d hd => h d (List.mem_cons_of_mem c hd)

theorem fromOpen_cons_ne (c : Char) (l : List Char) (hc : c ≠ '{') :
    fromOpen (c :: l) = fromOpen l := by
  unfold fromOpen
  exact List.dropWhile_cons_of_pos (by simpa using hc)

theorem fromOpen_cons_open (l : List Char) : fromOpen ('{' :: l) = '{' :: l := by
  unfold fromOpen
  exact List.dropWhile_cons_of_neg (by simp)

theorem spanName_cons_ne (c : Char) (l : List Char) (hc : c ≠ '{') :
    spanName (c :: l) = spanName l := by
  unfold spanName
  rw [fromOpen_cons_ne c l hc]

theorem fromClose_cons_ne (c : Char) (l : List Char) (hc : c ≠ '{') :
    fromClose (c :: l) = fromClose l := by
  unfold fromClose
  rw [fromOpen_cons_ne c l hc]

theorem hasSpan_cons_ne (c : Char) (l : List Char) (hc : c ≠ '{') :
    hasSpan (c :: l) = hasSpan l := by
  unfold hasSpan
  rw [fromOpen_cons_ne c l hc, fromClose_cons_ne c l hc]

theorem afterSpan_cons_ne (c : Char) (l : List Char) (hc : c ≠ '{') :
    afterSpan (c :: l) = afterSpan l := by
  unfold afterSpan
  rw [fromClose_cons_ne c l hc]

theorem beforeOpen_cons_ne (c : Char) (l : List Char) (hc : c ≠ '{') :
    beforeOpen (c :: l) = c :: beforeOpen l := by
  unfold beforeOpen
  exact List.takeWhile_cons_of_pos (by simpa using hc)

theorem spanName_open (l : List Char) :
    spanName ('{' :: l) = l.takeWhile fun c => decide (c ≠ '}') := by
  unfold spanName
  rw [fromOpen_cons_open]
  rfl

theorem fromClose_open (l : List Char) :
    fromClose ('{' :: l) = l.dropWhile fun c => decide (c ≠ '}') := by
  unfold fromClose
  rw [fromOpen_cons_open]
  rfl

theorem afterSpan_open (l : List Char) :
    afterSpan ('{' :: l) = (l.dropWhile fun c => decide (c ≠ '}')).tail := by
  unfold afterSpan
  rw [fromClose_open]

theorem hasSpan_open (l : List Char) :
    hasSpan ('{' :: l) = !(l.dropWhile fun c => decide (c ≠ '}')).isEmpty := by
  unfold hasSpan
  rw [fromOpen_cons_open, fromClose_open]
  simp

theorem beforeOpen_open (l : List Char) : beforeOpen ('{' :: l) = [] := by
  unfold beforeOpen
  exact List.takeWhile_cons_of_neg (by simp)

theorem specScanVarsNE_cons_ne (c : Char) (l : List Char) (hc : c ≠ '{') :
    specScanVarsNE (c :: l) = specScanVarsNE l := by
  by_cases h : hasSpan l = true
  · rw [specScanVarsNE, dif_pos (by rw [hasSpan_cons_ne c l hc]; exact h),
      spanName_cons_ne c l hc, afterSpan_cons_ne c l hc]
    conv_rhs => rw [specScanVarsNE, dif_pos h]
  · rw [specScanVarsNE, dif_neg (by simp only [hasSpan_cons_ne c l hc]; exact h)]
    rw [specScanVarsNE, dif_neg h]

theorem specSubstitute_cons_ne (kw : Dict) (c : Char) (l : List Char) (hc : c ≠ '{') :
    specSubstitute kw (c :: l) = c :: specSubstitute kw l := by
  by_cases h : hasSpan l = true
  · rw [specSubstitute, dif_pos (by rw [hasSpan_cons_ne c l hc]; exact h),
      beforeOpen_cons_ne c l hc, spanName_cons_ne c l hc, afterSpan_cons_ne c l hc]
    conv_rhs => rw [specSubstitute, dif_pos h]
    simp
  · rw [specSubstitute, dif_neg (by simp only [hasSpan_cons_ne c l hc]; exact h)]
    rw [specSubstitute, dif_neg h]

theorem findallVarAux_none_cons_ne (c : Char) (l : List Char) (hc : c ≠ '{') :
    findallVarAux none (c :: l) = findallVarAux none l := by
  rw [findallVarAux, if_neg hc]

/-!
## `get_variables` versus the claim-side scans
-/

theorem findallVarAux_some_eq (l : List Char) :
    ∀ acc : List Char,
      findallVarAux (some acc) l =
        if (l.dropWhile fun c => decide (c ≠ '}')) = [] then []
        else if acc.reverse ++ (l.takeWhile fun c => decide (c ≠ '}')) = [] then
          findallVarAux none (l.dropWhile fun c => decide (c ≠ '}')).tail
        else
          (acc.reverse ++ (l.takeWhile fun c => decide (c ≠ '}')))
            :: findallVarAux none (l.dropWhile fun c => decide (c ≠ '}')).tail := by
  induction l with
  | nil => intro acc; rfl
  | cons c rest ih =>
    intro acc
    by_cases hc : c = '}'
    · subst hc
      rw [show findallVarAux (some acc) ('}' :: rest)
          = if acc = [] then findallVarAux none rest
            else acc.reverse :: findallVarAux none rest from rfl]
      rw [List.dropWhile_cons_of_neg (by decide), List.takeWhile_cons_of_neg (by decide)]
      rw [if_neg (List.cons_ne_nil '}' rest), List.append_nil, List.tail_cons]
      by_cases ha : acc = []
      · subst ha
        rw [if_pos rfl, if_pos List.reverse_nil]
      · rw [if_neg ha, if_neg (mt List.reverse_eq_nil_iff.mp ha)]
    · rw [show findallVarAux (some acc) (c :: rest)
          = if c = '}' then
              (if acc = [] then findallVarAux none rest
               else acc.reverse :: findallVarAux none rest)
            else findallVarAux (some (c :: acc)) rest from rfl]
      rw [if_neg hc, ih (c :: acc),
        List.dropWhile_cons_of_pos (by simpa using hc),
        List.takeWhile_cons_of_pos (by simpa using hc)]
      by_cases hd : (rest.dropWhile fun c => decide (c ≠ '}')) = []
      · rw [if_pos hd, if_pos hd]
      · have hne1 : ¬((c :: acc).reverse ++ (rest.takeWhile fun c => decide (c ≠ '}')) = []) := by
          simp
        have hne2 : ¬(acc.reverse ++ c :: (rest.takeWhile fun c => decide (c ≠ '}')) = []) := by
          simp
        rw [if_neg hd, if_neg hd, if_neg hne1, if_neg hne2]
        simp [List.reverse_cons, List.append_assoc]

theorem findallVarAux_none_eq_specScanVarsNE (n : Nat) :
    ∀ l : List Char, l.length ≤ n → findallVarAux none l = specScanVarsNE l := by
  induction n with
  | zero =>
    intro l hl
    have : l = [] := List.length_eq_zero.mp (Nat.le_zero.mp hl)
    subst this
    rw [specScanVarsNE, dif_neg (by decide)]
    rfl
  | succ n ih =>
    intro l hl
    cases l with
    | nil =>
      rw [specScanVarsNE, dif_neg (by decide)]
      rfl
    | cons c rest =>
      by_cases hc : c = '{'
      · subst hc
        rw [show findallVarAux none ('{' :: rest) = findallVarAux (some []) rest from rfl,
          findallVarAux_some_eq rest []]
        cases hdw : rest.dropWhile (fun c => decide (c ≠ '}')) with
        | nil =>
          rw [if_pos rfl]
          rw [specScanVarsNE, dif_neg (by rw [hasSpan_open, hdw]; simp)]
        | cons d r4 =>
          have hr4 : r4.length ≤ n := by
            have h1 : (rest.dropWhile fun c => decide (c ≠ '}')).length ≤ rest.length :=
              (List.dropWhile_sublist _).length_le
            rw [hdw] at h1
            simp only [List.length_cons] at h1 hl
            omega
          have hh : hasSpan ('{' :: rest) = true := by
            rw [hasSpan_open, hdw]
            simp
          rw [if_neg (by simp), List.reverse_nil, List.nil_append, List.tail_cons, ih r4 hr4]
          conv_rhs => rw [specScanVarsNE, dif_pos hh, spanName_open, afterSpan_open, hdw,
            List.tail_cons]
      · have hrest : rest.length ≤ n := by
          simp only [List.length_cons] at hl
          omega
        rw [findallVarAux_none_cons_ne c rest hc, ih rest hrest,
          specScanVarsNE_cons_ne c rest hc]

/-- C4 (amended): `get_variables()` scans left to right for
non-overlapping spans delimited by a literal open brace and the next
literal close brace, taking the enclosed text verbatim in order of
appearance, except that a span whose enclosed text is empty contributes
no identifier (the regex group requires at least one character). -/
theorem get_variables_eq_nonempty_spans (T : PromptTemplate) :
    T.get_variables = specScanVarsNE T.template :=
  findallVarAux_none_eq_specScanVarsNE T.template.length T.template (Nat.le_refl _)

/-- C4 fails as stated on the template "{}": the claim's verbatim scan
yields the empty identifier, while `get_variables` (whose regex group
is one-or-more) yields nothing. -/
theorem get_variables_empty_span_counterexample :
    PromptTemplate.get_variables ⟨['{', '}'], []⟩ = [] ∧
      specScanVars ['{', '}'] = [[]] ∧
      PromptTemplate.get_variables ⟨['{', '}'], []⟩ ≠ specScanVars ['{', '}'] := by
  have h1 : PromptTemplate.get_variables ⟨['{', '}'], []⟩ = [] := by decide
  have h2 : specScanVars ['{', '}'] = [[]] := by
    rw [specScanVars, dif_pos (by decide)]
    show ([] : List Char) :: specScanVars [] = [[]]
    rw [specScanVars, dif_neg (by decide)]
  exact ⟨h1, h2, by rw [h1, h2]; decide⟩

theorem findallVarAux_mem (l : List Char) :
    ∀ (mode : Option (List Char)) (v : List Char),
      (∀ acc, mode = some acc → ∀ c ∈ acc, ¬ c = '}') →
      v ∈ findallVarAux mode l → v ≠ [] ∧ '}' ∉ v := by
  induction l with
  | nil =>
    intro mode v _ hv
    cases mode <;> simp [findallVarAux] at hv
  | cons c rest ih =>
    intro mode v hmode hv
    cases mode with
    | none =>
      by_cases hc : c = '{'
      · subst hc
        rw [findallVarAux, if_pos rfl] at hv
        exact ih (some []) v (by intro acc h; cases h; intro c hc; cases hc) hv
      · rw [findallVarAux, if_neg hc] at hv
        exact ih none v (fun acc h => nomatch h) hv
    | some acc =>
      have hacc : ∀ d ∈ acc, ¬ d = '}' := hmode acc rfl
      by_cases hc : c = '}'
      · subst hc
        rw [findallVarAux, if_pos rfl] at hv
        by_cases ha : acc = []
        · rw [if_pos ha] at hv
          exact ih none v (fun acc h => nomatch h) hv
        · rw [if_neg ha] at hv
          rcases List.mem_cons.mp hv with h | h
          · subst h
            refine ⟨by simpa using ha, ?_⟩
            intro hmem
            exact hacc '}' (List.mem_reverse.mp hmem) rfl
          · exact ih none v (fun acc h => nomatch h) h
      · rw [findallVarAux, if_neg hc] at hv
        refine ih (some (c :: acc)) v ?_ hv
        intro acc2 h
        cases h
        intro d hd
        rcases List.mem_cons.mp hd with h | h
        · subst h; exact hc
        · exact hacc d h

/-- C10: every identifier in the list returned by `get_variables()` is
non-empty and contains no close brace; in particular an empty
placeholder contributes no identifier. -/
theorem get_variables_nonempty_no_close_brace (T : PromptTemplate) (v : List Char)
    (hv : v ∈ T.get_variables) : v ≠ [] ∧ '}' ∉ v :=
  findallVarAux_mem T.template none v (fun acc h => nomatch h) hv

theorem get_variables_nonempty_no_close_brace_witness :
    ("a".data ∈ PromptTemplate.get_variables ⟨['{', 'a', '}', '{', '}'], []⟩ ∧
      PromptTemplate.get_variables ⟨['{', 'a', '}', '{', '}'], []⟩ = ["a".data]) ∧
      ("a".data ≠ [] ∧ '}' ∉ "a".data) :=
  ⟨⟨by decide, by decide⟩,
   get_variables_nonempty_no_close_brace ⟨['{', 'a', '}', '{', '}'], []⟩ "a".data (by decide)⟩

/-!
## The format scan on simple templates
-/

theorem simpleIdentChar_facts (c : Char) (h : simpleIdentChar c = true) :
    32 ≤ c.toNat ∧ c.toNat ≤ 126 ∧ c ≠ '{' ∧ c ≠ '}' ∧ c ≠ '!' ∧ c ≠ ':' ∧
      c ≠ '.' ∧ c ≠ '[' ∧ c ≠ ']' ∧ c ≠ squote ∧ c ≠ bslash := by
  unfold simpleIdentChar at h
  simp only [Bool.and_eq_true, decide_eq_true_eq] at h
  exact ⟨h.1.1.1.1.1.1.1.1.1.1, h.1.1.1.1.1.1.1.1.1.2, h.1.1.1.1.1.1.1.1.2,
    h.1.1.1.1.1.1.1.2, h.1.1.1.1.1.1.2, h.1.1.1.1.1.2, h.1.1.1.1.2, h.1.1.1.2,
    h.1.1.2, h.1.2, h.2⟩

theorem simpleScan_some_shape (l : List Char) :
    ∀ acc, simpleScan (some acc) l = true →
      ∃ name rest, l = name ++ '}' :: rest ∧
        (∀ c ∈ name, simpleIdentChar c = true) ∧
        simpleName (acc.reverse ++ name) = true ∧
        simpleScan none rest = true := by
  induction l with
  | nil =>
    intro acc h
    exact absurd h (by simp [simpleScan])
  | cons c rest ih =>
    intro acc h
    by_cases hc : c = '}'
    · subst hc
      rw [show simpleScan (some acc) ('}' :: rest)
          = (simpleName acc.reverse && simpleScan none rest) from rfl] at h
      rw [Bool.and_eq_true] at h
      exact ⟨[], rest, rfl, fun d hd => absurd hd (List.not_mem_nil d),
        by simpa using h.1, h.2⟩
    · rw [show simpleScan (some acc) (c :: rest)
          = if c = '}' then simpleName acc.reverse && simpleScan none rest
            else simpleIdentChar c && simpleScan (some (c :: acc)) rest from rfl,
        if_neg hc, Bool.and_eq_true] at h
      obtain ⟨name, rest2, hl, hn, hsn, hrest⟩ := ih (c :: acc) h.2
      refine ⟨c :: name, rest2, by rw [hl, List.cons_append], ?_, ?_, hrest⟩
      · intro d hd
        rcases List.mem_cons.mp hd with h1 | h1
        · subst h1; exact h.1
        · exact hn d h1
      · rw [List.reverse_cons, List.append_assoc] at hsn
        simpa using hsn

theorem pyFormatScan_fname (kw : Dict) (name : List Char) :
    ∀ (acc rest : List Char), (∀ c ∈ name, simpleIdentChar c = true) →
      pyFormatScan kw (.fname acc) (name ++ '}' :: rest) =
        match emitField kw (acc.reverse ++ name) none none with
        | .error e => .error e
        | .ok out =>
          match pyFormatScan kw .lit rest with
          | .error e => .error e
          | .ok tail => .ok (out ++ tail) := by
  induction name with
  | nil =>
    intro acc rest _
    rw [List.nil_append]
    rw [show pyFormatScan kw (.fname acc) ('}' :: rest)
        = match emitField kw acc.reverse none none with
          | .error e => .error e
          | .ok out =>
            match pyFormatScan kw .lit rest with
            | .error e => .error e
            | .ok tail => .ok (out ++ tail) from rfl]
    rw [List.append_nil]
  | cons c name2 ih =>
    intro acc rest hn
    obtain ⟨_, _, hbo, hbc, hbang, hcolon, _, hbrk, _, _, _⟩ :=
      simpleIdentChar_facts c (hn c (List.mem_cons_self c name2))
    rw [List.cons_append]
    rw [show pyFormatScan kw (.fname acc) (c :: (name2 ++ '}' :: rest))
        = if c = '}' then
            (match emitField kw acc.reverse none none with
             | .error e => .error e
             | .ok out =>
               match pyFormatScan kw .lit (name2 ++ '}' :: rest) with
               | .error e => .error e
               | .ok tail => .ok (out ++ tail))
          else if c = ':' then pyFormatScan kw (.fspec acc.reverse none [] 1) (name2 ++ '}' :: rest)
          else if c = '!' then pyFormatScan kw (.fconv acc.reverse) (name2 ++ '}' :: rest)
          else if c = '[' then pyFormatScan kw (.findex ('[' :: acc)) (name2 ++ '}' :: rest)
          else if c = '{' then .error (.valueError "unexpected \x7b in field name".data)
          else pyFormatScan kw (.fname (c :: acc)) (name2 ++ '}' :: rest) from rfl]
    rw [if_neg hbc, if_neg hcolon, if_neg hbang, if_neg hbrk, if_neg hbo]
    rw [ih (c :: acc) rest fun d hd => hn d (List.mem_cons_of_mem c hd)]
    rw [List.reverse_cons, List.append_assoc]
    rfl

theorem emitField_simple (kw : Dict) (name : List Char)
    (hname : simpleName name = true) :
    emitField kw name none none =
      match dictLookup kw name with
      | some v => .ok (pyStr v)
      | none => .error (.keyError name) := by
  unfold simpleName at hname
  simp only [Bool.and_eq_true, Bool.not_eq_true'] at hname
  obtain ⟨⟨hne, hall⟩, hdig⟩ := hname
  have hnodot : ∀ c ∈ name, (fun c => decide (c ≠ '.' ∧ c ≠ '[')) c = true := by
    intro c hc
    obtain ⟨_, _, _, _, _, _, hdot, hbrk, _, _, _⟩ :=
      simpleIdentChar_facts c (by
        rw [List.all_eq_true] at hall
        exact hall c hc)
    simp [hdot, hbrk]
  unfold emitField getField
  rw [takeWhile_all _ name hnodot, dropWhile_all _ name hnodot]
  simp only []
  rw [if_neg (by simpa [List.isEmpty_iff] using hne : ¬(name = []))]
  rw [if_neg (by simp [hdig] : ¬((name.all fun c => c.isDigit) = true))]
  cases hlook : dictLookup kw name with
  | some v => rfl
  | none => rfl

theorem findallVarAux_open_name (name rest : List Char)
    (hname : ∀ c ∈ name, decide (c ≠ '}') = true) (hne : name ≠ []) :
    findallVarAux none ('{' :: (name ++ '}' :: rest)) = name :: findallVarAux none rest := by
  have hdrop : ((name ++ '}' :: rest).dropWhile fun c => decide (c ≠ '}')) = '}' :: rest := by
    rw [List.dropWhile_append_of_pos hname, List.dropWhile_cons_of_neg (by decide)]
  have htake : ((name ++ '}' :: rest).takeWhile fun c => decide (c ≠ '}')) = name := by
    rw [List.takeWhile_append_of_pos hname, List.takeWhile_cons_of_neg (by decide),
      List.append_nil]
  rw [show findallVarAux none ('{' :: (name ++ '}' :: rest))
      = findallVarAux (some []) (name ++ '}' :: rest) from rfl,
    findallVarAux_some_eq, hdrop, htake,
    if_neg (List.cons_ne_nil '}' rest), List.reverse_nil, List.nil_append,
    List.tail_cons, if_neg hne]

theorem specSubstitute_open_name (kw : Dict) (name rest : List Char)
    (hname : ∀ c ∈ name, decide (c ≠ '}') = true) :
    specSubstitute kw ('{' :: (name ++ '}' :: rest)) =
      (match dictLookup kw name with
       | some v => pyStr v
       | none => '{' :: (name ++ ['}'])) ++ specSubstitute kw rest := by
  have hdrop : ((name ++ '}' :: rest).dropWhile fun c => decide (c ≠ '}')) = '}' :: rest := by
    rw [List.dropWhile_append_of_pos hname, List.dropWhile_cons_of_neg (by decide)]
  have htake : ((name ++ '}' :: rest).takeWhile fun c => decide (c ≠ '}')) = name := by
    rw [List.takeWhile_append_of_pos hname, List.takeWhile_cons_of_neg (by decide),
      List.append_nil]
  have hh : hasSpan ('{' :: (name ++ '}' :: rest)) = true := by
    rw [hasSpan_open, hdrop]
    simp
  rw [specSubstitute, dif_pos hh, beforeOpen_open, spanName_open, afterSpan_open,
    htake, hdrop, List.tail_cons, List.nil_append]

theorem pyFormatScan_open_name (kw : Dict) (name rest : List Char)
    (hn : ∀ c ∈ name, simpleIdentChar c = true) (hne : name ≠ []) :
    pyFormatScan kw .lit ('{' :: (name ++ '}' :: rest)) =
      match emitField kw name none none with
      | .error e => .error e
      | .ok out =>
        match pyFormatScan kw .lit rest with
        | .error e => .error e
        | .ok tail => .ok (out ++ tail) := by
  cases name with
  | nil => exact absurd rfl hne
  | cons c1 name2 =>
    obtain ⟨_, _, hbo, hbc, hbang, hcolon, _, hbrk, _, _, _⟩ :=
      simpleIdentChar_facts c1 (hn c1 (List.mem_cons_self c1 name2))
    rw [show pyFormatScan kw .lit ('{' :: ((c1 :: name2) ++ '}' :: rest))
        = pyFormatScan kw .openB (c1 :: (name2 ++ '}' :: rest)) from rfl]
    rw [show pyFormatScan kw .openB (c1 :: (name2 ++ '}' :: rest))
        = if c1 = '{' then
            (match pyFormatScan kw .lit (name2 ++ '}' :: rest) with
             | .error e => .error e
             | .ok out => .ok ('{' :: out))
          else if c1 = '}' then
            (match emitField kw [] none none with
             | .error e => .error e
             | .ok out =>
               match pyFormatScan kw .lit (name2 ++ '}' :: rest) with
               | .error e => .error e
               | .ok tail => .ok (out ++ tail))
          else if c1 = ':' then pyFormatScan kw (.fspec [] none [] 1) (name2 ++ '}' :: rest)
          else if c1 = '!' then pyFormatScan kw (.fconv []) (name2 ++ '}' :: rest)
          else if c1 = '[' then pyFormatScan kw (.findex ['[']) (name2 ++ '}' :: rest)
          else pyFormatScan kw (.fname [c1]) (name2 ++ '}' :: rest) from rfl]
    rw [if_neg hbo, if_neg hbc, if_neg hcolon, if_neg hbang, if_neg hbrk]
    rw [pyFormatScan_fname kw name2 [c1] rest fun d hd => hn d (List.mem_cons_of_mem c1 hd)]
    rfl

theorem pyFormatScan_lit_cons_ne (kw : Dict) (c : Char) (l : List Char)
    (h1 : c ≠ '{') (h2 : c ≠ '}') :
    pyFormatScan kw .lit (c :: l) =
      match pyFormatScan kw .lit l with
      | .error e => .error e
      | .ok out => .ok (c :: out) := by
  rw [show pyFormatScan kw .lit (c :: l)
      = if c = '{' then pyFormatScan kw .openB l
        else if c = '}' then pyFormatScan kw .closeB l
        else
          match pyFormatScan kw .lit l with
          | .error e => .error e
          | .ok out => .ok (c :: out) from rfl,
    if_neg h1, if_neg h2]

theorem pyFormatScan_simple (n : Nat) :
    ∀ (l : List Char) (kw : Dict), l.length ≤ n → simpleScan none l = true →
      pyFormatScan kw .lit l =
        match (findallVarAux none l).find? (fun v => !hasKey kw v) with
        | some v => .error (.keyError v)
        | none => .ok (specSubstitute kw l) := by
  induction n with
  | zero =>
    intro l kw hl _
    have hnil : l = [] := List.length_eq_zero.mp (Nat.le_zero.mp hl)
    subst hnil
    rw [show findallVarAux none ([] : List Char) = [] from rfl]
    rw [show List.find? (fun v => !hasKey kw v) [] = none from rfl]
    rw [specSubstitute, dif_neg (by decide)]
    rfl
  | succ n ih =>
    intro l kw hl hsimple
    cases l with
    | nil =>
      rw [show findallVarAux none ([] : List Char) = [] from rfl]
      rw [show List.find? (fun v => !hasKey kw v) [] = none from rfl]
      rw [specSubstitute, dif_neg (by decide)]
      rfl
    | cons c rest =>
      by_cases hc : c = '{'
      · subst hc
        rw [show simpleScan none ('{' :: rest) = simpleScan (some []) rest from rfl] at hsimple
        obtain ⟨name, rest2, hre, hnc, hsn, hrest2⟩ := simpleScan_some_shape rest [] hsimple
        subst hre
        rw [List.reverse_nil, List.nil_append] at hsn
        have hnchars : ∀ d ∈ name, decide (d ≠ '}') = true := by
          intro d hd
          obtain ⟨_, _, _, hbc, _⟩ := simpleIdentChar_facts d (hnc d hd)
          simpa using hbc
        have hne : name ≠ [] := by
          unfold simpleName at hsn
          simp only [Bool.and_eq_true, Bool.not_eq_true'] at hsn
          simpa [List.isEmpty_iff] using hsn.1.1
        have hlen2 : rest2.length ≤ n := by
          simp only [List.length_cons, List.length_append] at hl
          omega
        rw [pyFormatScan_open_name kw name rest2 hnc hne,
          emitField_simple kw name hsn,
          findallVarAux_open_name name rest2 hnchars hne,
          specSubstitute_open_name kw name rest2 hnchars]
        by_cases hk : hasKey kw name = true
        · rw [List.find?_cons_of_neg _ (by simp [hk])]
          cases hlook : dictLookup kw name with
          | none =>
            rw [hasKey, hlook] at hk
            exact absurd hk (by decide)
          | some v =>
            rw [ih rest2 kw hlen2 hrest2]
            cases hfind : (findallVarAux none rest2).find? (fun v => !hasKey kw v) with
            | some w => rfl
            | none => rfl
        · have hlook : dictLookup kw name = none := by
            rw [hasKey] at hk
            exact Option.not_isSome_iff_eq_none.mp hk
          rw [List.find?_cons_of_pos _ (by simp [hk]), hlook]
      · by_cases hc2 : c = '}'
        · subst hc2
          rw [show simpleScan none ('}' :: rest) = false from rfl] at hsimple
          exact absurd hsimple (by decide)
        · rw [show simpleScan none (c :: rest)
              = if c = '{' then simpleScan (some []) rest
                else if c = '}' then false
                else simpleScan none rest from rfl,
            if_neg hc, if_neg hc2] at hsimple
          have hlen : rest.length ≤ n := by
            simp only [List.length_cons] at hl
            omega
          rw [pyFormatScan_lit_cons_ne kw c rest hc hc2, ih rest kw hlen hsimple,
            findallVarAux_none_cons_ne c rest hc, specSubstitute_cons_ne kw c rest hc]
          cases (findallVarAux none rest).find? (fun v => !hasKey kw v) <;> rfl

theorem format_simple_eq (t : List Char) (d o : Dict) (ht : simpleTemplate t = true) :
    PromptTemplate.format ⟨t, d⟩ o =
      match (findallVarPat t).find? (fun v => !hasKey (pyDictMerge d o) v) with
      | some v => .error (.valueError (missingVarMsg v))
      | none => .ok (specSubstitute (pyDictMerge d o) t) := by
  unfold PromptTemplate.format
  simp only []
  rw [show pyStrFormat t (pyDictMerge d o) = pyFormatScan (pyDictMerge d o) .lit t from rfl]
  rw [pyFormatScan_simple t.length t (pyDictMerge d o) (Nat.le_refl _) ht]
  rw [show findallVarPat t = findallVarAux none t from rfl]
  cases hfind : (findallVarAux none t).find? (fun v => !hasKey (pyDictMerge d o) v) with
  | some v => rfl
  | none => rfl

/-- C2 (amended): on templates whose braces all form simple
`{identifier}` placeholders (non-empty identifiers of printable ASCII
with no brace, `!`, `:`, `.`, square bracket, quote or backslash, not
all digits), `format(overrides)` computes the effective mapping as the
defaults with the overrides applied on top (override wins on a key
collision, other defaults kept, new override keys added), and — when
every scanned identifier has a value — returns the template with every
placeholder span replaced by the stringified effective value, unused
keys silently ignored.  Outside that fragment `str.format` diverges
from the claim's description (see the counterexample: `{{` is an
escape). -/
theorem format_simple_success (t : List Char) (d o : Dict)
    (ht : simpleTemplate t = true)
    (hall : ∀ v ∈ PromptTemplate.get_variables ⟨t, d⟩, hasKey (pyDictMerge d o) v = true) :
    PromptTemplate.format ⟨t, d⟩ o = .ok (specSubstitute (pyDictMerge d o) t) ∧
      ∀ x, dictLookup (pyDictMerge d o) x =
        match dictLookup o x with
        | some v => some v
        | none => dictLookup d x := by
  refine ⟨?_, fun x => dictLookup_pyDictMerge d o x⟩
  rw [format_simple_eq t d o ht]
  have hfind : (findallVarPat t).find? (fun v => !hasKey (pyDictMerge d o) v) = none := by
    rw [List.find?_eq_none]
    intro v hv
    simp [hall v hv]
  rw [hfind]

theorem format_simple_success_witness :
    (simpleTemplate "Hello {name}".data = true ∧
      ∀ v ∈ PromptTemplate.get_variables
          ⟨"Hello {name}".data, [("name".data, .str "World".data)]⟩,
        hasKey (pyDictMerge [("name".data, .str "World".data)]
          [("name".data, .str "Alice".data)]) v = true) ∧
      PromptTemplate.format ⟨"Hello {name}".data, [("name".data, .str "World".data)]⟩
          [("name".data, .str "Alice".data)]
        = .ok (specSubstitute
            (pyDictMerge [("name".data, .str "World".data)] [("name".data, .str "Alice".data)])
            "Hello {name}".data) :=
  ⟨⟨by decide, by decide⟩,
   (format_simple_success "Hello {name}".data [("name".data, .str "World".data)]
      [("name".data, .str "Alice".data)] (by decide) (by decide)).1⟩

/-- C2 fails as stated on the template consisting of two open braces:
there is no first-open-brace-to-next-close-brace placeholder in it, so
the claim's reading returns it unchanged, but `str.format` treats the
doubled brace as an escape and returns a single open brace. -/
theorem format_escaped_brace_counterexample :
    PromptTemplate.format ⟨['{', '{'], []⟩ [] = .ok ['{'] ∧
      specSubstitute (pyDictMerge [] []) ['{', '{'] = ['{', '{'] ∧
      PromptTemplate.format ⟨['{', '{'], []⟩ []
        ≠ .ok (specSubstitute (pyDictMerge [] []) ['{', '{']) := by
  have h1 : PromptTemplate.format ⟨['{', '{'], []⟩ [] = .ok ['{'] := by decide
  have h2 : specSubstitute (pyDictMerge [] []) ['{', '{'] = ['{', '{'] := by
    rw [specSubstitute, dif_neg (by decide)]
  exact ⟨h1, h2, by rw [h1, h2]; decide⟩

theorem get_variables_simple (n : Nat) :
    ∀ l : List Char, l.length ≤ n → simpleScan none l = true →
      ∀ v ∈ findallVarAux none l, simpleName v = true := by
  induction n with
  | zero =>
    intro l hl _ v hv
    have hnil : l = [] := List.length_eq_zero.mp (Nat.le_zero.mp hl)
    subst hnil
    exact absurd hv (List.not_mem_nil v)
  | succ n ih =>
    intro l hl hsimple v hv
    cases l with
    | nil => exact absurd hv (List.not_mem_nil v)
    | cons c rest =>
      by_cases hc : c = '{'
      · subst hc
        rw [show simpleScan none ('{' :: rest) = simpleScan (some []) rest from rfl] at hsimple
        obtain ⟨name, rest2, hre, hnc, hsn, hrest2⟩ := simpleScan_some_shape rest [] hsimple
        subst hre
        rw [List.reverse_nil, List.nil_append] at hsn
        have hnchars : ∀ d ∈ name, decide (d ≠ '}') = true := by
          intro d hd
          obtain ⟨_, _, _, hbc, _⟩ := simpleIdentChar_facts d (hnc d hd)
          simpa using hbc
        have hne : name ≠ [] := by
          unfold simpleName at hsn
          simp only [Bool.and_eq_true, Bool.not_eq_true'] at hsn
          simpa [List.isEmpty_iff] using hsn.1.1
        have hlen2 : rest2.length ≤ n := by
          simp only [List.length_cons, List.length_append] at hl
          omega
        rw [findallVarAux_open_name name rest2 hnchars hne] at hv
        rcases List.mem_cons.mp hv with h1 | h1
        · subst h1
          exact hsn
        · exact ih rest2 hlen2 hrest2 v h1
      · by_cases hc2 : c = '}'
        · subst hc2
          rw [show simpleScan none ('}' :: rest) = false from rfl] at hsimple
          exact absurd hsimple (by decide)
        · rw [show simpleScan none (c :: rest)
              = if c = '{' then simpleScan (some []) rest
                else if c = '}' then false
                else simpleScan none rest from rfl,
            if_neg hc, if_neg hc2] at hsimple
          have hlen : rest.length ≤ n := by
            simp only [List.length_cons] at hl
            omega
          rw [findallVarAux_none_cons_ne c rest hc] at hv
          exact ih rest hlen hsimple v hv

theorem pyReprChar_simple (c : Char) (h : simpleIdentChar c = true) :
    pyReprChar squote c = [c] := by
  obtain ⟨h32, h126, _, _, _, _, _, _, _, hsq, hbs⟩ := simpleIdentChar_facts c h
  unfold pyReprChar
  rw [if_neg hbs, if_neg hsq,
    if_neg (by intro he; rw [he] at h32; exact absurd h32 (by decide)),
    if_neg (by intro he; rw [he] at h32; exact absurd h32 (by decide)),
    if_neg (by intro he; rw [he] at h32; exact absurd h32 (by decide)),
    if_neg (by omega : ¬(c.toNat < 32 ∨ c.toNat = 127))]

theorem flatten_map_reprChar (v : List Char) (hv : ∀ c ∈ v, simpleIdentChar c = true) :
    (v.map (pyReprChar squote)).flatten = v := by
  induction v with
  | nil => rfl
  | cons c rest ih =>
    rw [List.map_cons, List.flatten_cons, pyReprChar_simple c (hv c (List.mem_cons_self c rest)),
      ih fun d hd => hv d (List.mem_cons_of_mem c hd)]
    rfl

theorem pyReprStr_simple (v : List Char) (hv : ∀ c ∈ v, simpleIdentChar c = true) :
    pyReprStr v = squote :: (v ++ [squote]) := by
  unfold pyReprStr
  have hq : ¬(squote ∈ v ∧ ¬ dquote ∈ v) := by
    rintro ⟨hs, _⟩
    obtain ⟨_, _, _, _, _, _, _, _, _, hsq, _⟩ := simpleIdentChar_facts squote (hv squote hs)
    exact hsq rfl
  rw [if_neg hq]
  simp only []
  rw [flatten_map_reprChar v hv]
  rfl

theorem missingVarMsg_infix (v : List Char) (hv : ∀ c ∈ v, simpleIdentChar c = true) :
    v <:+: missingVarMsg v := by
  unfold missingVarMsg
  rw [pyReprStr_simple v hv]
  exact ⟨"Missing required template variable: ".data ++ [squote], [squote], by simp⟩

/-- C3 (amended): on templates whose braces all form simple
`{identifier}` placeholders, `format(overrides)` fails iff some
identifier scanned from the template has neither an override nor a
default; the raised error is the missing-variable ValueError naming
(as a Python repr, quoted) the first missing identifier in scan order,
whose text appears verbatim inside the message, and on failure no
string is returned.  Outside that fragment `str.format` diverges from
the claim (see the counterexample: a `{a:}` field succeeds although
the scanned identifier `a:` has no value). -/
theorem format_simple_missing_variable (t : List Char) (d o : Dict)
    (ht : simpleTemplate t = true) :
    (∀ v, (PromptTemplate.get_variables ⟨t, d⟩).find?
          (fun w => !hasKey (pyDictMerge d o) w) = some v →
        PromptTemplate.format ⟨t, d⟩ o = .error (.valueError (missingVarMsg v)) ∧
          v <:+: missingVarMsg v ∧
          ∀ s, ¬ PromptTemplate.format ⟨t, d⟩ o = .ok s) ∧
      ((PromptTemplate.get_variables ⟨t, d⟩).find?
          (fun w => !hasKey (pyDictMerge d o) w) = none →
        ∃ s, PromptTemplate.format ⟨t, d⟩ o = .ok s) ∧
      ((∃ v ∈ PromptTemplate.get_variables ⟨t, d⟩, hasKey (pyDictMerge d o) v = false) ↔
        ∃ m, PromptTemplate.format ⟨t, d⟩ o = .error (.valueError m)) := by
  have heq := format_simple_eq t d o ht
  have hvars : PromptTemplate.get_variables ⟨t, d⟩ = findallVarPat t := rfl
  refine ⟨?_, ?_, ?_⟩
  · intro v hfind
    rw [hvars] at hfind
    rw [heq, hfind]
    refine ⟨rfl, ?_, fun s h => by simp at h⟩
    have hmem : v ∈ findallVarPat t := List.mem_of_find?_eq_some hfind
    have hsimp : simpleName v = true :=
      get_variables_simple t.length t (Nat.le_refl _) ht v hmem
    refine missingVarMsg_infix v ?_
    intro c hc
    unfold simpleName at hsimp
    simp only [Bool.and_eq_true] at hsimp
    rw [List.all_eq_true] at hsimp
    exact hsimp.1.2 c hc
  · intro hfind
    rw [hvars] at hfind
    rw [heq, hfind]
    exact ⟨specSubstitute (pyDictMerge d o) t, rfl⟩
  · constructor
    · rintro ⟨v, hv, hkey⟩
      cases hfind : (findallVarPat t).find? (fun w => !hasKey (pyDictMerge d o) w) with
      | none =>
        rw [List.find?_eq_none] at hfind
        exact absurd (by simp [hkey]) (hfind v (hvars ▸ hv))
      | some w =>
        rw [heq, hfind]
        exact ⟨missingVarMsg w, rfl⟩
    · rintro ⟨m, hm⟩
      cases hfind : (findallVarPat t).find? (fun w => !hasKey (pyDictMerge d o) w) with
      | none =>
        rw [heq, hfind] at hm
        simp at hm
      | some w =>
        refine ⟨w, hvars ▸ List.mem_of_find?_eq_some hfind, ?_⟩
        have := List.find?_some hfind
        simpa using this
  
theorem format_simple_missing_variable_witness :
    (simpleTemplate "Hello {name}".data = true ∧
      (PromptTemplate.get_variables ⟨"Hello {name}".data, []⟩).find?
          (fun w => !hasKey (pyDictMerge [] []) w) = some "name".data) ∧
      (PromptTemplate.format ⟨"Hello {name}".data, []⟩ []
          = .error (.valueError (missingVarMsg "name".data)) ∧
        "name".data <:+: missingVarMsg "name".data) :=
  ⟨⟨by decide, by decide⟩,
   by
    have h := (format_simple_missing_variable "Hello {name}".data [] []
      (by decide)).1 "name".data (by decide)
    exact ⟨h.1, h.2.1⟩⟩

/-- C3 fails as stated on the template `{a:}`: its only scanned
placeholder identifier is `a:`, which is absent from the effective
mapping, yet `format` succeeds — `str.format` parses the field as name
`a` with an empty format specification. -/
theorem format_spec_field_counterexample :
    PromptTemplate.get_variables ⟨['{', 'a', ':', '}'], []⟩ = ["a:".data] ∧
      hasKey (pyDictMerge [] [("a".data, PyVal.str "x".data)]) "a:".data = false ∧
      PromptTemplate.format ⟨['{', 'a', ':', '}'], []⟩ [("a".data, PyVal.str "x".data)]
        = .ok "x".data := by
  refine ⟨by decide, by decide, by decide⟩
